import Mathlib

/-!
Verification of the railway-judge execution engine (`src/server.js`).

The repository holds two variants of the same Express server:
a legacy single-input variant (`handleCPP`, `handlePython`, `handleJava`,
`handleJS` and a single-stdin endpoint) and a batch-optimised variant
(`handleBatchExecution` and an endpoint taking an `inputs` array).
Both are embedded below.

Process execution (`child_process.exec`) is modelled by an oracle that maps
each invocation (command, working directory, timeout, stdin text) to the raw
outcome Node delivers to the `exec` callback: an optional error object
(with its `killed`, `signal` and numeric `code` fields), the captured
stdout/stderr, and the measured wall-clock elapsed milliseconds
(`Date.now() - start`).  The pure callback logic of `runCommand` is embedded
as `runCommandResult`.  Filesystem and process side effects are recorded in
an explicit effect trace.
-/

/-- The raw `error` object Node's `exec` passes to its callback
(only the fields `runCommand` inspects: `killed`, `signal`, and `code`
when it is a number). -/
structure ExecError where
  killed : Bool
  signal : Option String
  code : Option Int
deriving Repr, DecidableEq

/-- What one `child_process.exec` call delivers to its callback, together
with the wall-clock elapsed time `Date.now() - start` measured there. -/
structure ExecOutcome where
  error : Option ExecError
  stdout : String
  stderr : String
  elapsedMs : Nat
deriving Repr, DecidableEq

/-- One process invocation: the shell command, the working directory,
the timeout, and the text written to the child's stdin. -/
structure Invocation where
  cmd : String
  cwd : String
  timeoutMs : Nat
  input : String
deriving Repr, DecidableEq

/-- An oracle fixing the outcome of every process invocation. -/
def ExecOracle := Invocation → ExecOutcome

/-- A result object as `runCommand` resolves it: `{stdout, stderr, code,
timeMs}`.  `timeMs` is `none` for the synthesized objects the server builds
without running a process (`{ code: 0, stdout: '', stderr: '' }`), which
carry no `timeMs` field. -/
structure JsResult where
  stdout : String
  stderr : String
  code : Int
  timeMs : Option Nat
deriving Repr, DecidableEq

/-- `error && error.killed && error.signal === "SIGTERM"`: the condition
under which `runCommand` reports the timeout sentinel.  Node's `exec` with
the `timeout` option kills a child that is still running at the deadline
with the default kill signal SIGTERM and sets `error.killed = true` and
`error.signal = "SIGTERM"` on the callback's error. -/
def isTimeoutTermination (o : ExecOutcome) : Bool :=
  match o.error with
  | some e => e.killed && e.signal == some "SIGTERM"
  | none => false

/-- The callback body of `runCommand` (`src/server.js`, both variants):
the timeout sentinel `{stdout:"", stderr:"Time limit exceeded", code:124,
timeMs}` when the child was killed by the deadline's SIGTERM, otherwise the
captured streams with `code = error.code` when that is a number and `0`
otherwise (also `0` when there is no error at all). -/
def runCommandResult (o : ExecOutcome) : JsResult :=
  if isTimeoutTermination o then
    ⟨"", "Time limit exceeded", 124, some o.elapsedMs⟩
  else
    ⟨o.stdout, o.stderr,
      (match o.error with
       | some e => e.code.getD 0
       | none => 0),
      some o.elapsedMs⟩

/-- The `ExecOutcome` of a process that is still running when its deadline
expires: Node forcibly terminates it with SIGTERM; `s` and `t` are whatever
output the child had produced before termination, `e` the elapsed time up
to termination. -/
def timeoutOutcome (s t : String) (c : Option Int) (e : Nat) : ExecOutcome :=
  ⟨some ⟨true, some "SIGTERM", c⟩, s, t, e⟩

/-- A `files` entry of the request body: `{name?, content?}`. -/
structure SourceFile where
  name : Option String
  content : Option String
deriving Repr, DecidableEq

/-- Observable side effects of a job, in program order. -/
inductive Effect where
  | mkdir (dir : String)
  | writeFile (dir fileName content : String)
  | spawn (inv : Invocation)
  | rmdir (dir : String)
deriving Repr, DecidableEq

/-- The spawn events of a trace, in order. -/
def spawnedInvocations (tr : List Effect) : List Invocation :=
  tr.filterMap fun e =>
    match e with
    | .spawn i => some i
    | _ => none

/-- Whether an effect is the recursive workspace deletion (`fs.rmSync`). -/
def isRmEffect : Effect → Bool
  | .rmdir _ => true
  | _ => false

/-- File-name resolution of the batch handler's write loop
(`handleBatchExecution`, step 1): the provided name, or the per-language
default.  In the source a missing name for any other language leaves the
variable undefined; that branch is unreachable because the endpoint
validates the language first. -/
def resolvedFileName (language : String) (f : SourceFile) : String :=
  match f.name with
  | some n => n
  | none =>
      if language = "cpp" then "main.cpp"
      else if language = "python" then "main.py"
      else if language = "java" then "Main.java"
      else if language = "javascript" then "main.js"
      else "undefined"

/-- The synthesized compile object `{ code: 0, stdout: '', stderr: '' }`
that `handleBatchExecution` uses for languages with no compile phase
(it carries no `timeMs` field). -/
def defaultCompileRes : JsResult := ⟨"", "", 0, none⟩

/-- The compile invocation of `handleBatchExecution`, when the language has
a compile phase. -/
def compileInvocation (language jobDir : String) (compileTimeout : Nat) :
    Option Invocation :=
  if language = "cpp" then
    some ⟨"g++ -std=c++17 -O2 -pipe -static -s *.cpp -o main", jobDir, compileTimeout, ""⟩
  else if language = "java" then
    some ⟨"javac *.java", jobDir, compileTimeout, ""⟩
  else none

/-- `compileRes` as `handleBatchExecution` computes it: the compile step's
result for cpp/java, the synthesized success object otherwise. -/
def compileResult (oracle : ExecOracle) (language jobDir : String)
    (compileTimeout : Nat) : JsResult :=
  match compileInvocation language jobDir compileTimeout with
  | some inv => runCommandResult (oracle inv)
  | none => defaultCompileRes

/-- `runCmd` as `handleBatchExecution` computes it.  Note that for the
interpreted languages the command hardcodes the default entry file
(`main.py` / `main.js`), independent of the submitted file names. -/
def batchRunCmd (language : String) : String :=
  if language = "cpp" then "./main"
  else if language = "java" then "java Main"
  else if language = "python" then "python3 main.py"
  else if language = "javascript" ∨ language = "node" then "node main.js"
  else ""

/-- The batch run loop (`handleBatchExecution`, step 3): one sequential
`runCommand` per input, in input order; returns the results and the spawn
trace. -/
def batchRuns (oracle : ExecOracle) (runCmd jobDir : String)
    (runTimeout : Nat) (inputs : List String) :
    List JsResult × List Effect :=
  match inputs with
  | [] => ([], [])
  | input :: rest =>
      let inv : Invocation := ⟨runCmd, jobDir, runTimeout, input⟩
      let r := batchRuns oracle runCmd jobDir runTimeout rest
      (runCommandResult (oracle inv) :: r.fst, Effect.spawn inv :: r.snd)

/-- The `{compile, results}` object `handleBatchExecution` returns. -/
structure BatchOutcome where
  compile : JsResult
  results : List JsResult
deriving Repr, DecidableEq

/-- `handleBatchExecution(language, jobDir, files, inputs, compileTimeout,
runTimeout)` of the batch variant: write every file (provided name or
per-language default, submission order), run the compile step once for
cpp/java, short-circuit with empty `results` on a non-zero compile code,
otherwise run the language's run command once per input, sequentially, in
input order.  Returned alongside the result is the effect trace. -/
def handleBatchExecution (oracle : ExecOracle) (language jobDir : String)
    (files : List SourceFile) (inputs : List String)
    (compileTimeout runTimeout : Nat) : BatchOutcome × List Effect :=
  let wtrace := files.map fun f =>
    Effect.writeFile jobDir (resolvedFileName language f) (f.content.getD "")
  let compileRes := compileResult oracle language jobDir compileTimeout
  let ctrace := match compileInvocation language jobDir compileTimeout with
    | some inv => [Effect.spawn inv]
    | none => []
  if compileRes.code ≠ 0 then
    (⟨compileRes, []⟩, wtrace ++ ctrace)
  else
    let r := batchRuns oracle (batchRunCmd language) jobDir runTimeout inputs
    (⟨compileRes, r.fst⟩, wtrace ++ ctrace ++ r.snd)

/-- The parsed JSON request body of the batch endpoint (absent fields are
`none`).  Timeouts are already numbers; `Number(x) || default` treats both
a missing field and `0` as the default. -/
structure RequestBody where
  language : Option String
  files : Option (List SourceFile)
  stdin : Option String
  inputs : Option (List String)
  compile_timeout : Option Nat
  run_timeout : Option Nat
deriving Repr, DecidableEq

/-- The language whitelist of the batch endpoint. -/
def supportedLanguages : List String :=
  ["cpp", "c++", "python", "java", "javascript", "node", "js"]

/-- JavaScript's `s.toLowerCase()` on the ASCII language tags: lower-case
each character (a structurally recursive equivalent of `String.toLower`). -/
def strToLower (s : String) : String :=
  ⟨s.data.map Char.toLower⟩

/-- `language = (language || "").toLowerCase()`. -/
def lowerLanguage (body : RequestBody) : String :=
  strToLower (body.language.getD "")

/-- The endpoint's normalisation after validation: `c++` → `cpp`,
`node`/`js` → `javascript`. -/
def normalizeLanguage (language : String) : String :=
  let l1 := if language = "c++" then "cpp" else language
  if l1 = "node" ∨ l1 = "js" then "javascript" else l1

/-- `batchInputs`: the `inputs` array when it is a non-empty array,
otherwise the single-element batch `[stdin || ""]`. -/
def batchInputsOf (body : RequestBody) : List String :=
  match body.inputs with
  | some l => if l.length > 0 then l else [body.stdin.getD ""]
  | none => [body.stdin.getD ""]

/-- `Number(compile_timeout) || 10000`. -/
def effCompileTimeout (body : RequestBody) : Nat :=
  match body.compile_timeout with
  | some n => if n = 0 then 10000 else n
  | none => 10000

/-- `Number(run_timeout) || 3000`. -/
def effRunTimeout (body : RequestBody) : Nat :=
  match body.run_timeout with
  | some n => if n = 0 then 3000 else n
  | none => 3000

/-- The JSON body of a successful batch response: `{language, compile,
run, results}`.  `compile` is an `Option` so that presence of the field is
part of the model; the batch endpoint always sets it. -/
structure BatchResponse where
  language : String
  compile : Option JsResult
  run : JsResult
  results : List JsResult
deriving Repr, DecidableEq

/-- The endpoint's outcome: a 200 JSON body or a client error
(`res.status(400)`). -/
inductive Response where
  | ok (r : BatchResponse)
  | clientError (status : Nat) (msg : String)
deriving Repr, DecidableEq

/-- The `compile` field of a response, `none` when absent. -/
def responseCompile : Response → Option JsResult
  | .ok r => r.compile
  | .clientError _ _ => none

/-- The batch variant's `POST /api/v2/piston/execute` handler: lowercase
the language, normalise the batch inputs and timeouts, create the job
directory, validate the language (rejecting with 400 — note the directory
was already created), otherwise normalise the language, run
`handleBatchExecution`, and build the Piston-shaped response whose
top-level `run` is the first batch result or the synthesized
`{code:0, stdout:"", stderr:""}`.  The `finally` block deletes the job
directory on every path; its trace position is the end. -/
def executeEndpoint (oracle : ExecOracle) (jobId : String)
    (body : RequestBody) : Response × List Effect :=
  let language := lowerLanguage body
  let files := (body.files.getD [])
  let batchInputs := batchInputsOf body
  let compileTimeout := effCompileTimeout body
  let runTimeout := effRunTimeout body
  let jobDir := "/tmp/executions/" ++ jobId
  if language ∈ supportedLanguages then
    let lang := normalizeLanguage language
    let r := handleBatchExecution oracle lang jobDir files batchInputs
      compileTimeout runTimeout
    let legacyRun : JsResult :=
      match r.fst.results with
      | first :: _ => first
      | [] => ⟨"", "", 0, none⟩
    (Response.ok ⟨lang, some r.fst.compile, legacyRun, r.fst.results⟩,
      Effect.mkdir jobDir :: (r.snd ++ [Effect.rmdir jobDir]))
  else
    (Response.clientError 400 ("Unsupported language: " ++ language),
      [Effect.mkdir jobDir, Effect.rmdir jobDir])

/-- A filesystem abstraction: the list of directories present under the
scratch root.  `mkdirSync` adds the directory, `fs.rmSync` (when it
succeeds) removes it; file writes and spawns do not change the directory
set. -/
def applyEffect (rmOk : Bool) (dirs : List String) : Effect → List String
  | .mkdir d => if d ∈ dirs then dirs else d :: dirs
  | .rmdir d => if rmOk then dirs.filter (fun x => x ≠ d) else dirs
  | _ => dirs

/-- Run a whole effect trace over the directory set. -/
def applyTrace (rmOk : Bool) (dirs : List String) (tr : List Effect) :
    List String :=
  tr.foldl (applyEffect rmOk) dirs

/-- The endpoint together with its filesystem outcome: the response and
the final directory set, where `rmOk` says whether the cleanup deletion in
the `finally` block succeeds (its failure is swallowed by the empty
`catch`). -/
def runEndpointFS (oracle : ExecOracle) (jobId : String)
    (body : RequestBody) (rmOk : Bool) (dirs : List String) :
    Response × List String :=
  let r := executeEndpoint oracle jobId body
  (r.fst, applyTrace rmOk dirs r.snd)

/-- JavaScript's `name.endsWith(ext)`: the character sequence of `ext` is
a suffix of that of `s` (a structurally recursive equivalent of
`String.endsWith`). -/
def strEndsWith (s ext : String) : Bool :=
  ext.data.isSuffixOf s.data

/-- The legacy variant's main-file loop (`handlePython` / `handleJS`):
starting from the default, each file whose resolved name (provided name or
the default) ends with the extension overwrites the entry file, so the
last match wins. -/
def legacyMainFile (defaultName ext : String) (files : List SourceFile) :
    String :=
  files.foldl
    (fun acc f =>
      let n := f.name.getD defaultName
      if strEndsWith n ext then n else acc)
    defaultName

/-- The legacy `handlePython(jobDir, files, stdin, runTimeout)`: write the
files, resolve the main file, run `python3 <mainFile>`; returns the run
result and the effect trace. -/
def handlePython (oracle : ExecOracle) (jobDir : String)
    (files : List SourceFile) (stdin : String) (runTimeout : Nat) :
    JsResult × List Effect :=
  let mainFile := legacyMainFile "main.py" ".py" files
  let inv : Invocation := ⟨"python3 " ++ mainFile, jobDir, runTimeout, stdin⟩
  (runCommandResult (oracle inv),
    (files.map fun f =>
      Effect.writeFile jobDir (f.name.getD "main.py") (f.content.getD ""))
    ++ [Effect.spawn inv])

/-- The legacy `handleJS(jobDir, files, stdin, runTimeout)`: write the
files, resolve the main file, run `node <mainFile>`. -/
def handleJS (oracle : ExecOracle) (jobDir : String)
    (files : List SourceFile) (stdin : String) (runTimeout : Nat) :
    JsResult × List Effect :=
  let mainFile := legacyMainFile "main.js" ".js" files
  let inv : Invocation := ⟨"node " ++ mainFile, jobDir, runTimeout, stdin⟩
  (runCommandResult (oracle inv),
    (files.map fun f =>
      Effect.writeFile jobDir (f.name.getD "main.js") (f.content.getD ""))
    ++ [Effect.spawn inv])

/-- Modelled from the spec's words (§4.2 main-file resolution), for
comparison with the code: "if any submitted file's name matches the
language's expected extension, the last such match becomes the entry file;
otherwise the language's default name is assumed". -/
def specEntryFile (defaultName ext : String) (files : List SourceFile) :
    String :=
  (((files.map fun f => f.name.getD defaultName).reverse.find?
      fun n => strEndsWith n ext)).getD defaultName

/-- An oracle whose every process succeeds silently (no error object). -/
def trivialOracle : ExecOracle := fun _ => ⟨none, "", "", 0⟩

/-- An oracle whose every process fails with exit code 1. -/
def failingOracle : ExecOracle :=
  fun _ => ⟨some ⟨false, none, some 1⟩, "", "compile error", 5⟩

/-- Whether `fs.writeFileSync(path.join(jobDir, name), content)` throws,
and with which message (`err.message`): `none` means the write succeeds.
`fs.writeFileSync` is the only statement inside the endpoint's `try` block
that can throw (`runCommand` always resolves), e.g. on a file name naming
a nonexistent subdirectory. -/
def WriteOracle := String → String → String → Option String

/-- The write oracle under which no write ever throws. -/
def neverThrowWrites : WriteOracle := fun _ _ _ => none

/-- A write oracle whose every write throws with message "ENOENT". -/
def throwingWrites : WriteOracle := fun _ _ _ => some "ENOENT"

/-- The batch handler's write loop under a write oracle: files are written
in submission order; the first throwing write aborts the loop (the
exception propagates out of `handleBatchExecution`).  Returns the error
message of the throwing write, if any, and the trace of the writes that
succeeded before it. -/
def writeFilesX (w : WriteOracle) (language jobDir : String) :
    List SourceFile → Option String × List Effect
  | [] => (none, [])
  | f :: rest =>
      let name := resolvedFileName language f
      let content := f.content.getD ""
      match w jobDir name content with
      | some msg => (some msg, [])
      | none =>
          let r := writeFilesX w language jobDir rest
          (r.fst, Effect.writeFile jobDir name content :: r.snd)

/-- `handleBatchExecution` with the exception path made explicit: a
throwing `fs.writeFileSync` aborts the handler (`Except.error` with the
error's message); otherwise the behaviour is that of
`handleBatchExecution`. -/
def handleBatchExecutionX (w : WriteOracle) (oracle : ExecOracle)
    (language jobDir : String) (files : List SourceFile)
    (inputs : List String) (ct rt : Nat) :
    Except String BatchOutcome × List Effect :=
  let wr := writeFilesX w language jobDir files
  match wr.fst with
  | some msg => (Except.error msg, wr.snd)
  | none =>
      let compileRes := compileResult oracle language jobDir ct
      let ctrace := match compileInvocation language jobDir ct with
        | some inv => [Effect.spawn inv]
        | none => []
      if compileRes.code ≠ 0 then
        (Except.ok ⟨compileRes, []⟩, wr.snd ++ ctrace)
      else
        let r := batchRuns oracle (batchRunCmd language) jobDir rt inputs
        (Except.ok ⟨compileRes, r.fst⟩, wr.snd ++ ctrace ++ r.snd)

/-- The endpoint's outcome with the `catch` branch included: a 200 JSON
body, a client error (`res.status(400)`), or the server error the `catch`
block sends (`res.status(500).json({error: err.message})`). -/
inductive ResponseX where
  | ok (r : BatchResponse)
  | clientError (status : Nat) (msg : String)
  | serverError (status : Nat) (msg : String)
deriving Repr, DecidableEq

/-- A `Response` of the exception-free model, seen as a `ResponseX`. -/
def embedResponse : Response → ResponseX
  | .ok r => .ok r
  | .clientError st m => .clientError st m

/-- The batch `POST /api/v2/piston/execute` handler with all three exit
paths of the source: the unsupported-language rejection (400), the `catch`
branch reached by a throwing `fs.writeFileSync` inside
`handleBatchExecution` (500), and normal completion (200).  On every path
the `finally` block's workspace deletion is the final effect. -/
def executeEndpointX (w : WriteOracle) (oracle : ExecOracle)
    (jobId : String) (body : RequestBody) : ResponseX × List Effect :=
  let language := lowerLanguage body
  let files := (body.files.getD [])
  let batchInputs := batchInputsOf body
  let compileTimeout := effCompileTimeout body
  let runTimeout := effRunTimeout body
  let jobDir := "/tmp/executions/" ++ jobId
  if language ∈ supportedLanguages then
    let lang := normalizeLanguage language
    let r := handleBatchExecutionX w oracle lang jobDir files batchInputs
      compileTimeout runTimeout
    match r.fst with
    | Except.error msg =>
        (ResponseX.serverError 500 msg,
          Effect.mkdir jobDir :: (r.snd ++ [Effect.rmdir jobDir]))
    | Except.ok outcome =>
        let legacyRun : JsResult :=
          match outcome.results with
          | first :: _ => first
          | [] => ⟨"", "", 0, none⟩
        (ResponseX.ok ⟨lang, some outcome.compile, legacyRun, outcome.results⟩,
          Effect.mkdir jobDir :: (r.snd ++ [Effect.rmdir jobDir]))
  else
    (ResponseX.clientError 400 ("Unsupported language: " ++ language),
      [Effect.mkdir jobDir, Effect.rmdir jobDir])

/-- The exception-aware endpoint together with its filesystem outcome,
where `rmOk` says whether the cleanup deletion in the `finally` block
succeeds (its failure is swallowed by the empty `catch`). -/
def runEndpointFSX (w : WriteOracle) (oracle : ExecOracle) (jobId : String)
    (body : RequestBody) (rmOk : Bool) (dirs : List String) :
    ResponseX × List String :=
  let r := executeEndpointX w oracle jobId body
  (r.fst, applyTrace rmOk dirs r.snd)

/-! ### Helper lemmas -/

theorem batchRuns_fst (oracle : ExecOracle) (runCmd jobDir : String)
    (rt : Nat) (inputs : List String) :
    (batchRuns oracle runCmd jobDir rt inputs).fst
      = inputs.map fun inp => runCommandResult (oracle ⟨runCmd, jobDir, rt, inp⟩) := by
  induction inputs with
  | nil => rfl
  | cons x xs ih => simp [batchRuns, ih]

theorem batchRuns_snd (oracle : ExecOracle) (runCmd jobDir : String)
    (rt : Nat) (inputs : List String) :
    (batchRuns oracle runCmd jobDir rt inputs).snd
      = inputs.map fun inp => Effect.spawn ⟨runCmd, jobDir, rt, inp⟩ := by
  induction inputs with
  | nil => rfl
  | cons x xs ih => simp [batchRuns, ih]

theorem handleBatchExecution_of_compile_ok (oracle : ExecOracle)
    (language jobDir : String) (files : List SourceFile)
    (inputs : List String) (ct rt : Nat)
    (h : (compileResult oracle language jobDir ct).code = 0) :
    handleBatchExecution oracle language jobDir files inputs ct rt
      = (⟨compileResult oracle language jobDir ct,
          inputs.map fun inp =>
            runCommandResult (oracle ⟨batchRunCmd language, jobDir, rt, inp⟩)⟩,
        (files.map fun f =>
          Effect.writeFile jobDir (resolvedFileName language f) (f.content.getD ""))
        ++ (match compileInvocation language jobDir ct with
            | some inv => [Effect.spawn inv]
            | none => [])
        ++ inputs.map fun inp =>
            Effect.spawn ⟨batchRunCmd language, jobDir, rt, inp⟩) := by
  rw [handleBatchExecution]
  simp [h, batchRuns_fst, batchRuns_snd, List.append_assoc]

theorem handleBatchExecution_of_compile_fail (oracle : ExecOracle)
    (language jobDir : String) (files : List SourceFile)
    (inputs : List String) (ct rt : Nat)
    (h : (compileResult oracle language jobDir ct).code ≠ 0) :
    handleBatchExecution oracle language jobDir files inputs ct rt
      = (⟨compileResult oracle language jobDir ct, []⟩,
        (files.map fun f =>
          Effect.writeFile jobDir (resolvedFileName language f) (f.content.getD ""))
        ++ (match compileInvocation language jobDir ct with
            | some inv => [Effect.spawn inv]
            | none => [])) := by
  rw [handleBatchExecution]
  simp [h]

theorem spawnedInvocations_append (t₁ t₂ : List Effect) :
    spawnedInvocations (t₁ ++ t₂)
      = spawnedInvocations t₁ ++ spawnedInvocations t₂ := by
  simp [spawnedInvocations]

theorem spawnedInvocations_writes (jobDir language : String)
    (files : List SourceFile) :
    spawnedInvocations (files.map fun f =>
      Effect.writeFile jobDir (resolvedFileName language f) (f.content.getD ""))
      = [] := by
  induction files with
  | nil => rfl
  | cons x xs ih => simp [spawnedInvocations] at ih ⊢

theorem spawnedInvocations_runs (runCmd jobDir : String) (rt : Nat)
    (inputs : List String) :
    spawnedInvocations (inputs.map fun inp =>
      Effect.spawn ⟨runCmd, jobDir, rt, inp⟩)
      = inputs.map fun inp => (⟨runCmd, jobDir, rt, inp⟩ : Invocation) := by
  induction inputs with
  | nil => rfl
  | cons x xs ih => simpa [spawnedInvocations] using ih

theorem foldl_last_match (p : String → Bool) (l : List String) (a : String) :
    l.foldl (fun acc n => if p n then n else acc) a
      = (l.reverse.find? p).getD a := by
  induction l generalizing a with
  | nil => rfl
  | cons x xs ih =>
      rw [List.foldl_cons, ih, List.reverse_cons, List.find?_append]
      cases hf : xs.reverse.find? p with
      | some n => simp
      | none =>
          by_cases hp : p x <;> simp [List.find?, hp]

theorem spawnedInvocations_ctrace (language jobDir : String) (ct : Nat) :
    spawnedInvocations
      (match compileInvocation language jobDir ct with
       | some inv => [Effect.spawn inv]
       | none => [])
      = (compileInvocation language jobDir ct).toList := by
  cases compileInvocation language jobDir ct <;> simp [spawnedInvocations]

theorem handleBatchExecution_spawns_of_compile_ok (oracle : ExecOracle)
    (language jobDir : String) (files : List SourceFile)
    (inputs : List String) (ct rt : Nat)
    (h : (compileResult oracle language jobDir ct).code = 0) :
    spawnedInvocations
        (handleBatchExecution oracle language jobDir files inputs ct rt).snd
      = (compileInvocation language jobDir ct).toList
        ++ inputs.map (fun inp => ⟨batchRunCmd language, jobDir, rt, inp⟩) := by
  rw [handleBatchExecution_of_compile_ok oracle language jobDir files inputs ct rt h]
  rw [spawnedInvocations_append, spawnedInvocations_append,
    spawnedInvocations_writes, spawnedInvocations_ctrace,
    spawnedInvocations_runs]
  simp

/-! ### Claim theorems -/

/-- C1: for every job whose compile step succeeds (or whose language has no
compile phase), the results sequence has exactly one entry per submitted
input; `results[i]` is the result of running the run command with
`inputs[i]` as stdin; and the run invocations are issued sequentially in
input order (after the compile invocation, if any), never reordered. -/
theorem c1_results_one_per_input_in_order (oracle : ExecOracle)
    (language jobDir : String) (files : List SourceFile)
    (inputs : List String) (ct rt : Nat)
    (h : (compileResult oracle language jobDir ct).code = 0) :
    (handleBatchExecution oracle language jobDir files inputs ct rt).fst.results
      = inputs.map (fun inp =>
          runCommandResult (oracle ⟨batchRunCmd language, jobDir, rt, inp⟩))
    ∧ (handleBatchExecution oracle language jobDir files inputs ct rt).fst.results.length
        = inputs.length
    ∧ (∀ i (hi : i < inputs.length)
        (hr : i < (handleBatchExecution oracle language jobDir files inputs ct rt).fst.results.length),
        (handleBatchExecution oracle language jobDir files inputs ct rt).fst.results.get ⟨i, hr⟩
          = runCommandResult
              (oracle ⟨batchRunCmd language, jobDir, rt, inputs.get ⟨i, hi⟩⟩))
    ∧ spawnedInvocations
        (handleBatchExecution oracle language jobDir files inputs ct rt).snd
      = (compileInvocation language jobDir ct).toList
        ++ inputs.map (fun inp => ⟨batchRunCmd language, jobDir, rt, inp⟩) := by
  have hs := handleBatchExecution_spawns_of_compile_ok oracle language
    jobDir files inputs ct rt h
  have he := handleBatchExecution_of_compile_ok oracle language jobDir
    files inputs ct rt h
  rw [he] at hs ⊢
  refine ⟨rfl, by simp, ?_, hs⟩
  intro i hi hr
  simp

/-- Witness for C1: a two-input python batch (no compile phase) yields two
results, which are the oracle's run results for the two inputs in order. -/
theorem c1_witness :
    (handleBatchExecution trivialOracle "python" "/tmp/executions/j1"
        [⟨none, some "x"⟩] ["a", "b"] 10000 3000).fst.results.length
      = (["a", "b"] : List String).length :=
  (c1_results_one_per_input_in_order trivialOracle "python" "/tmp/executions/j1"
      [⟨none, some "x"⟩] ["a", "b"] 10000 3000 (by decide)).2.1

/-- C3: for a language with a compile phase whose compile step exits
non-zero, the job outcome carries that compile result with an empty results
sequence, and the compile invocation is the only process ever spawned — no
run command is invoked for any input. -/
theorem c3_compile_failure_short_circuits (oracle : ExecOracle)
    (language jobDir : String) (files : List SourceFile)
    (inputs : List String) (ct rt : Nat) (inv : Invocation)
    (hc : compileInvocation language jobDir ct = some inv)
    (h : (runCommandResult (oracle inv)).code ≠ 0) :
    (handleBatchExecution oracle language jobDir files inputs ct rt).fst
      = ⟨runCommandResult (oracle inv), []⟩
    ∧ spawnedInvocations
        (handleBatchExecution oracle language jobDir files inputs ct rt).snd
      = [inv] := by
  have hcr : compileResult oracle language jobDir ct = runCommandResult (oracle inv) := by
    rw [compileResult, hc]
  have he := handleBatchExecution_of_compile_fail oracle language jobDir files inputs ct rt
    (by rw [hcr]; exact h)
  rw [he]
  refine ⟨by rw [hcr], ?_⟩
  rw [spawnedInvocations_append, spawnedInvocations_writes,
    spawnedInvocations_ctrace, hc]
  simp

/-- Witness for C3: a cpp job whose compile fails with exit code 1 gets the
compile result and an empty results sequence. -/
theorem c3_witness :
    (handleBatchExecution failingOracle "cpp" "/tmp/executions/j2"
        [⟨none, some "bad"⟩] ["x"] 10000 3000).fst
      = ⟨runCommandResult (failingOracle
          ⟨"g++ -std=c++17 -O2 -pipe -static -s *.cpp -o main",
            "/tmp/executions/j2", 10000, ""⟩), []⟩ :=
  (c3_compile_failure_short_circuits failingOracle "cpp" "/tmp/executions/j2"
      [⟨none, some "bad"⟩] ["x"] 10000 3000
      ⟨"g++ -std=c++17 -O2 -pipe -static -s *.cpp -o main",
        "/tmp/executions/j2", 10000, ""⟩
      rfl (by decide)).1

/-- C4: every process invocation (compile or run, any language) still
running at its deadline is forcibly terminated (SIGTERM, `killed = true`)
and reported exactly as the timeout sentinel: exit code 124 and stderr
"Time limit exceeded", with the elapsed time measured up to termination. -/
theorem c4_timeout_sentinel (s t : String) (c : Option Int) (e : Nat) :
    runCommandResult (timeoutOutcome s t c e)
      = ⟨"", "Time limit exceeded", 124, some e⟩ := by
  simp [runCommandResult, isTimeoutTermination, timeoutOutcome]

/-- C9: every timed-out invocation reports empty stdout: output the child
produced before forcible termination (`s` here) is discarded. -/
theorem c9_timeout_discards_stdout (s t : String) (c : Option Int) (e : Nat) :
    (runCommandResult (timeoutOutcome s t c e)).stdout = "" := by
  simp [runCommandResult, isTimeoutTermination, timeoutOutcome]

/-- C7: on a non-timeout completion with an error object, the reported
exit code is the child's real exit code when that is a number and 0
otherwise, and the reported time is the wall-clock elapsed milliseconds
from spawn to completion. -/
theorem c7_nontimeout_code_and_time (o : ExecOutcome) (err : ExecError)
    (he : o.error = some err)
    (hnt : isTimeoutTermination o = false) :
    (∀ c, err.code = some c → (runCommandResult o).code = c)
    ∧ (err.code = none → (runCommandResult o).code = 0)
    ∧ (runCommandResult o).timeMs = some o.elapsedMs := by
  unfold runCommandResult
  rw [hnt]
  simp only [Bool.false_eq_true, if_false, he]
  refine ⟨?_, ?_, ?_⟩
  · intro c hcode
    simp [hcode]
  · intro hcode
    simp [hcode]
  · trivial

/-- Witness for C7: a child that exits with code 7 after 42 ms is reported
with exit code 7. -/
theorem c7_witness :
    (runCommandResult ⟨some ⟨false, none, some 7⟩, "out", "err", 42⟩).code = 7 :=
  (c7_nontimeout_code_and_time ⟨some ⟨false, none, some 7⟩, "out", "err", 42⟩
      ⟨false, none, some 7⟩ rfl rfl).1 7 rfl

theorem spawnedInvocations_writesGen (jobDir : String)
    (nameOf contentOf : SourceFile → String) (files : List SourceFile) :
    spawnedInvocations (files.map fun f =>
      Effect.writeFile jobDir (nameOf f) (contentOf f)) = [] := by
  induction files with
  | nil => rfl
  | cons x xs ih => simp [spawnedInvocations]

theorem legacyMainFile_eq_spec (d ext : String) (files : List SourceFile) :
    legacyMainFile d ext files = specEntryFile d ext files := by
  unfold legacyMainFile specEntryFile
  rw [← foldl_last_match (fun n => strEndsWith n ext)
    (files.map fun f => f.name.getD d) d, List.foldl_map]

/-- C5 as stated is false for the batch handler: with a single submitted
file named "foo.py" — the last (and only) name matching ".py" — the run
command invoked is "python3 main.py", not "python3 foo.py". -/
theorem c5_counterexample :
    (spawnedInvocations (handleBatchExecution trivialOracle "python"
        "/tmp/executions/j3" [⟨some "foo.py", some "x"⟩] ["a"] 10000
        3000).snd).map Invocation.cmd
      = ["python3 main.py"]
    ∧ specEntryFile "main.py" ".py" [⟨some "foo.py", some "x"⟩] = "foo.py"
    ∧ ("python3 main.py" : String) ≠ "python3 foo.py" := by
  refine ⟨by decide, by decide, by decide⟩

/-- C5 amended: the legacy single-input handlers resolve the entry file as
the last submitted file whose (defaulted) name matches the language's
extension, the default name when none matches — the code's fold equals the
spec's last-match rule; the batch handler instead always runs the
language's default entry file ("python3 main.py" / "node main.js"),
ignoring the submitted file names. -/
theorem c5_amended_entry_file_resolution (oracle : ExecOracle)
    (jobDir stdin : String) (files : List SourceFile)
    (inputs : List String) (ct rt : Nat) :
    spawnedInvocations (handlePython oracle jobDir files stdin rt).snd
      = [⟨"python3 " ++ specEntryFile "main.py" ".py" files, jobDir, rt, stdin⟩]
    ∧ spawnedInvocations (handleJS oracle jobDir files stdin rt).snd
      = [⟨"node " ++ specEntryFile "main.js" ".js" files, jobDir, rt, stdin⟩]
    ∧ (spawnedInvocations (handleBatchExecution oracle "python" jobDir
          files inputs ct rt).snd).map Invocation.cmd
      = inputs.map (fun _ => "python3 main.py")
    ∧ (spawnedInvocations (handleBatchExecution oracle "javascript" jobDir
          files inputs ct rt).snd).map Invocation.cmd
      = inputs.map (fun _ => "node main.js") := by
  refine ⟨?_, ?_, ?_, ?_⟩
  · unfold handlePython
    rw [spawnedInvocations_append,
      spawnedInvocations_writesGen jobDir (fun f => f.name.getD "main.py")
        (fun f => f.content.getD ""),
      legacyMainFile_eq_spec]
    simp [spawnedInvocations]
  · unfold handleJS
    rw [spawnedInvocations_append,
      spawnedInvocations_writesGen jobDir (fun f => f.name.getD "main.js")
        (fun f => f.content.getD ""),
      legacyMainFile_eq_spec]
    simp [spawnedInvocations]
  · have h0 : (compileResult oracle "python" jobDir ct).code = 0 := rfl
    rw [handleBatchExecution_spawns_of_compile_ok oracle "python" jobDir
      files inputs ct rt h0]
    simp [compileInvocation, batchRunCmd, Function.comp_def]
  · have h0 : (compileResult oracle "javascript" jobDir ct).code = 0 := rfl
    rw [handleBatchExecution_spawns_of_compile_ok oracle "javascript" jobDir
      files inputs ct rt h0]
    simp [compileInvocation, batchRunCmd, Function.comp_def]

theorem handleBatchExecution_compile (oracle : ExecOracle)
    (language jobDir : String) (files : List SourceFile)
    (inputs : List String) (ct rt : Nat) :
    (handleBatchExecution oracle language jobDir files inputs ct rt).fst.compile
      = compileResult oracle language jobDir ct := by
  unfold handleBatchExecution
  by_cases h : (compileResult oracle language jobDir ct).code = 0 <;> simp [h]

/-- C6 as stated is false on the batch endpoint: a successful python job's
response contains a compile field — the synthesized success object —
although python has no compile phase. -/
theorem c6_counterexample :
    responseCompile (executeEndpoint trivialOracle "j4"
        ⟨some "python", some [⟨none, some "x"⟩], some "hi", none, none, none⟩).fst
      = some defaultCompileRes
    ∧ responseCompile (executeEndpoint trivialOracle "j4"
        ⟨some "python", some [⟨none, some "x"⟩], some "hi", none, none, none⟩).fst
      ≠ none := by
  refine ⟨by decide, by decide⟩

/-- C6 amended: every successful batch-endpoint response contains a compile
field; for a language with no compile phase it is the synthesized
`{code: 0, stdout: "", stderr: ""}` object rather than being absent. -/
theorem c6_amended_compile_field_always_present (oracle : ExecOracle)
    (jobId : String) (body : RequestBody) (r : BatchResponse)
    (h : (executeEndpoint oracle jobId body).fst = Response.ok r) :
    r.compile.isSome = true
    ∧ (compileInvocation (normalizeLanguage (lowerLanguage body))
          ("/tmp/executions/" ++ jobId) (effCompileTimeout body) = none →
        r.compile = some defaultCompileRes) := by
  unfold executeEndpoint at h
  by_cases hm : lowerLanguage body ∈ supportedLanguages
  · simp only [hm, if_true, Response.ok.injEq] at h
    subst h
    refine ⟨rfl, ?_⟩
    intro hnone
    rw [handleBatchExecution_compile, compileResult, hnone]
  · simp [hm] at h

/-- Witness for C6 amended: the concrete python job of the counterexample
has its compile field present and equal to the synthesized object. -/
theorem c6_amended_witness :
    (⟨"python", some defaultCompileRes, ⟨"", "", 0, some 0⟩,
        [⟨"", "", 0, some 0⟩]⟩ : BatchResponse).compile.isSome = true :=
  (c6_amended_compile_field_always_present trivialOracle "j4"
      ⟨some "python", some [⟨none, some "x"⟩], some "hi", none, none, none⟩
      ⟨"python", some defaultCompileRes, ⟨"", "", 0, some 0⟩,
        [⟨"", "", 0, some 0⟩]⟩
      (by decide)).1

/-- C10: whenever a batch response's results sequence is empty (compile
failure), the backward-compatibility top-level run field is the
synthesized `{code: 0, stdout: "", stderr: ""}` object — a run exit code 0
there does not imply any run was executed. -/
theorem c10_legacy_run_synthesized_on_empty_results (oracle : ExecOracle)
    (jobId : String) (body : RequestBody) (r : BatchResponse)
    (h : (executeEndpoint oracle jobId body).fst = Response.ok r)
    (hr : r.results = []) :
    r.run = ⟨"", "", 0, none⟩ := by
  unfold executeEndpoint at h
  by_cases hm : lowerLanguage body ∈ supportedLanguages
  · simp only [hm, if_true, Response.ok.injEq] at h
    subst h
    simp only at hr
    rw [hr]
  · simp [hm] at h

/-- Witness for C10: a cpp job whose compile fails (every process exits 1
under `failingOracle`) produces an empty results sequence and the
synthesized top-level run object. -/
theorem c10_witness :
    (⟨"cpp", some ⟨"", "compile error", 1, some 5⟩, ⟨"", "", 0, none⟩,
        []⟩ : BatchResponse).run = ⟨"", "", 0, none⟩ :=
  c10_legacy_run_synthesized_on_empty_results failingOracle "j7"
    ⟨some "cpp", some [⟨none, some "bad"⟩], none, some ["x"], none, none⟩
    ⟨"cpp", some ⟨"", "compile error", 1, some 5⟩, ⟨"", "", 0, none⟩, []⟩
    (by decide) (by decide)

/-- C2 as stated is false: for the unsupported language "ruby" the endpoint
rejects with a 400 client error, but the workspace directory has already
been created — `fs.mkdirSync(jobDir)` runs before the language check. -/
theorem c2_counterexample :
    (executeEndpoint trivialOracle "j6"
        ⟨some "ruby", none, none, none, none, none⟩).fst
      = Response.clientError 400 "Unsupported language: ruby"
    ∧ Effect.mkdir "/tmp/executions/j6"
        ∈ (executeEndpoint trivialOracle "j6"
            ⟨some "ruby", none, none, none, none, none⟩).snd := by
  refine ⟨by decide, by decide⟩

/-- C2 amended: an unsupported language is rejected with a 400 client
error, with no file written and no process spawned; the workspace
directory, however, is created before validation and deleted again by the
cleanup block, so no workspace survives the request. -/
theorem c2_amended_reject_before_file_or_process_io (oracle : ExecOracle)
    (jobId : String) (body : RequestBody) (s : List String)
    (h : lowerLanguage body ∉ supportedLanguages) :
    (executeEndpoint oracle jobId body).fst
      = Response.clientError 400
          ("Unsupported language: " ++ lowerLanguage body)
    ∧ (executeEndpoint oracle jobId body).snd
      = [Effect.mkdir ("/tmp/executions/" ++ jobId),
         Effect.rmdir ("/tmp/executions/" ++ jobId)]
    ∧ ("/tmp/executions/" ++ jobId)
        ∉ (runEndpointFS oracle jobId body true s).snd := by
  refine ⟨?_, ?_, ?_⟩
  · unfold executeEndpoint
    simp [h]
  · unfold executeEndpoint
    simp [h]
  · unfold runEndpointFS executeEndpoint
    simp [h, applyTrace, applyEffect, List.mem_filter]

/-- Witness for C2 amended: the "ruby" request is answered with the 400
client error. -/
theorem c2_amended_witness :
    (executeEndpoint trivialOracle "j6"
        ⟨some "ruby", none, none, none, none, none⟩).fst
      = Response.clientError 400
          ("Unsupported language: "
            ++ lowerLanguage ⟨some "ruby", none, none, none, none, none⟩) :=
  (c2_amended_reject_before_file_or_process_io trivialOracle "j6"
      ⟨some "ruby", none, none, none, none, none⟩ [] (by decide)).1

theorem filter_isRm_writes (jobDir : String)
    (nameOf contentOf : SourceFile → String) (files : List SourceFile) :
    (files.map fun f =>
      Effect.writeFile jobDir (nameOf f) (contentOf f)).filter isRmEffect
      = [] := by
  induction files with
  | nil => rfl
  | cons x xs ih => simp [isRmEffect, ih]

theorem filter_isRm_ctrace (language jobDir : String) (ct : Nat) :
    (match compileInvocation language jobDir ct with
     | some inv => [Effect.spawn inv]
     | none => []).filter isRmEffect = [] := by
  cases compileInvocation language jobDir ct <;> simp [isRmEffect]

theorem filter_isRm_runs (runCmd jobDir : String) (rt : Nat)
    (inputs : List String) :
    (inputs.map fun inp =>
      Effect.spawn ⟨runCmd, jobDir, rt, inp⟩).filter isRmEffect = [] := by
  induction inputs with
  | nil => rfl
  | cons x xs ih => simp [isRmEffect, ih]

theorem handleBatchExecution_no_rm (oracle : ExecOracle)
    (language jobDir : String) (files : List SourceFile)
    (inputs : List String) (ct rt : Nat) :
    (handleBatchExecution oracle language jobDir files inputs
      ct rt).snd.filter isRmEffect = [] := by
  by_cases h : (compileResult oracle language jobDir ct).code = 0
  · rw [handleBatchExecution_of_compile_ok oracle language jobDir files
      inputs ct rt h]
    simp only [List.filter_append, filter_isRm_writes, filter_isRm_ctrace,
      filter_isRm_runs, List.append_nil]
  · rw [handleBatchExecution_of_compile_fail oracle language jobDir files
      inputs ct rt h]
    simp only [List.filter_append, filter_isRm_writes, filter_isRm_ctrace,
      List.append_nil]

theorem applyTrace_append (rmOk : Bool) (s : List String)
    (t₁ t₂ : List Effect) :
    applyTrace rmOk s (t₁ ++ t₂)
      = applyTrace rmOk (applyTrace rmOk s t₁) t₂ :=
  List.foldl_append _ _ _ _

theorem not_mem_applyTrace_rm (d : String) (s : List String)
    (t : List Effect) :
    d ∉ applyTrace true s (t ++ [Effect.rmdir d]) := by
  rw [applyTrace_append]
  simp [applyTrace, applyEffect, List.mem_filter]

theorem writeFilesX_no_rm (w : WriteOracle) (language jobDir : String)
    (files : List SourceFile) :
    (writeFilesX w language jobDir files).snd.filter isRmEffect = [] := by
  induction files with
  | nil => rfl
  | cons f rest ih =>
      rw [writeFilesX]
      cases hw : w jobDir (resolvedFileName language f) (f.content.getD "") with
      | some msg => simp [hw]
      | none => simp [hw, isRmEffect, ih]

theorem handleBatchExecutionX_no_rm (w : WriteOracle) (oracle : ExecOracle)
    (language jobDir : String) (files : List SourceFile)
    (inputs : List String) (ct rt : Nat) :
    (handleBatchExecutionX w oracle language jobDir files inputs
      ct rt).snd.filter isRmEffect = [] := by
  unfold handleBatchExecutionX
  cases hw : (writeFilesX w language jobDir files).fst with
  | some msg => simp [hw, writeFilesX_no_rm]
  | none =>
      by_cases h : (compileResult oracle language jobDir ct).code = 0 <;>
        simp [hw, h, List.filter_append, writeFilesX_no_rm,
          filter_isRm_ctrace, filter_isRm_runs, batchRuns_snd]

theorem executeEndpointX_snd_of_supported (w : WriteOracle)
    (oracle : ExecOracle) (jobId : String) (body : RequestBody)
    (hm : lowerLanguage body ∈ supportedLanguages) :
    (executeEndpointX w oracle jobId body).snd
      = Effect.mkdir ("/tmp/executions/" ++ jobId)
        :: ((handleBatchExecutionX w oracle
              (normalizeLanguage (lowerLanguage body))
              ("/tmp/executions/" ++ jobId) (body.files.getD [])
              (batchInputsOf body) (effCompileTimeout body)
              (effRunTimeout body)).snd
            ++ [Effect.rmdir ("/tmp/executions/" ++ jobId)]) := by
  unfold executeEndpointX
  simp only [hm, if_true]
  split <;> rfl

theorem writeFilesX_neverThrow (language jobDir : String)
    (files : List SourceFile) :
    writeFilesX neverThrowWrites language jobDir files
      = (none, files.map fun f =>
          Effect.writeFile jobDir (resolvedFileName language f)
            (f.content.getD "")) := by
  induction files with
  | nil => rfl
  | cons f rest ih => simp [writeFilesX, neverThrowWrites, ih]

theorem handleBatchExecutionX_neverThrow (oracle : ExecOracle)
    (language jobDir : String) (files : List SourceFile)
    (inputs : List String) (ct rt : Nat) :
    handleBatchExecutionX neverThrowWrites oracle language jobDir files
        inputs ct rt
      = (Except.ok (handleBatchExecution oracle language jobDir files
            inputs ct rt).fst,
         (handleBatchExecution oracle language jobDir files inputs
            ct rt).snd) := by
  unfold handleBatchExecutionX handleBatchExecution
  rw [writeFilesX_neverThrow]
  by_cases h : (compileResult oracle language jobDir ct).code = 0 <;> simp [h]

theorem executeEndpointX_neverThrow (oracle : ExecOracle) (jobId : String)
    (body : RequestBody) :
    executeEndpointX neverThrowWrites oracle jobId body
      = (embedResponse (executeEndpoint oracle jobId body).fst,
         (executeEndpoint oracle jobId body).snd) := by
  unfold executeEndpointX executeEndpoint
  by_cases hm : lowerLanguage body ∈ supportedLanguages
  · simp [hm, handleBatchExecutionX_neverThrow, embedResponse]
  · simp [hm, embedResponse]

/-- The handler-exception path concretely: with every write throwing, a
supported-language job is answered with the 500 server error built from
the error's message, and the cleanup deletion is still the final effect of
the trace. -/
theorem exception_path_reaches_catch_and_cleanup :
    (executeEndpointX throwingWrites trivialOracle "j8"
        ⟨some "python", some [⟨none, some "x"⟩], none, none, none,
          none⟩).fst
      = ResponseX.serverError 500 "ENOENT"
    ∧ (executeEndpointX throwingWrites trivialOracle "j8"
        ⟨some "python", some [⟨none, some "x"⟩], none, none, none,
          none⟩).snd
      = [Effect.mkdir "/tmp/executions/j8",
         Effect.rmdir "/tmp/executions/j8"] := by
  refine ⟨by decide, by decide⟩

/-- C8: the workspace deletion (`fs.rmSync` in the `finally` block) is
issued exactly once per request, as the final effect, on every exit path
of the endpoint — unsupported-language rejection (400), handler exception
(a throwing `fs.writeFileSync` inside `handleBatchExecution`, answered
500 by the `catch` block), and normal completion (200); the response does
not depend on whether the deletion succeeds (a failed `fs.rmSync` is
swallowed); and when the deletion succeeds the workspace directory is
absent from the scratch root afterwards. -/
theorem c8_workspace_released_exactly_once (w : WriteOracle)
    (oracle : ExecOracle) (jobId : String) (body : RequestBody)
    (rmOk : Bool) (s : List String) :
    (executeEndpointX w oracle jobId body).snd.filter isRmEffect
      = [Effect.rmdir ("/tmp/executions/" ++ jobId)]
    ∧ (executeEndpointX w oracle jobId body).snd.getLast?
      = some (Effect.rmdir ("/tmp/executions/" ++ jobId))
    ∧ (runEndpointFSX w oracle jobId body rmOk s).fst
      = (executeEndpointX w oracle jobId body).fst
    ∧ ("/tmp/executions/" ++ jobId)
        ∉ (runEndpointFSX w oracle jobId body true s).snd := by
  by_cases hm : lowerLanguage body ∈ supportedLanguages
  · refine ⟨?_, ?_, rfl, ?_⟩
    · rw [executeEndpointX_snd_of_supported w oracle jobId body hm,
        List.filter_cons]
      simp only [isRmEffect, List.filter_append, handleBatchExecutionX_no_rm]
      simp [isRmEffect]
    · rw [executeEndpointX_snd_of_supported w oracle jobId body hm,
        ← List.cons_append, List.getLast?_concat]
    · show ("/tmp/executions/" ++ jobId)
          ∉ applyTrace true s (executeEndpointX w oracle jobId body).snd
      rw [executeEndpointX_snd_of_supported w oracle jobId body hm,
        ← List.cons_append]
      exact not_mem_applyTrace_rm _ s _
  · refine ⟨?_, ?_, rfl, ?_⟩
    · unfold executeEndpointX
      simp [hm, isRmEffect]
    · unfold executeEndpointX
      simp [hm]
    · unfold runEndpointFSX executeEndpointX
      simp only [hm, if_false]
      have hrw : [Effect.mkdir ("/tmp/executions/" ++ jobId),
          Effect.rmdir ("/tmp/executions/" ++ jobId)]
          = [Effect.mkdir ("/tmp/executions/" ++ jobId)]
            ++ [Effect.rmdir ("/tmp/executions/" ++ jobId)] := rfl
      rw [hrw]
      exact not_mem_applyTrace_rm _ s _
